import Mathlib

/-
Verification of the file-transfer, traversal and hashing core of
shinerainsoftsevenutil (files/m1_files_wrappers.py, files/m2_files_listing.py,
files/m3_files_higher.py) against its natural-language specification.

The python code is shallowly embedded: the filesystem is an explicit state
(file path to byte content, plus a set of directories), stateful functions
return the new state together with an optional raised error, and the
platform-specific branches (sys.platform dispatch) become a Platform
parameter.  Bytes are Nat; timestamps and tracing parameters
(doTrace, traceOnly, keepSameModifiedTime) are outside the model, which
tracks existence and byte content only.
-/

namespace Srss

/-- A byte, as fed to the copy loop and the hash accumulators. -/
abbrev Bytes := List Nat

/- ---------------- PathUtil (m1_files_wrappers.py) ---------------- -/

/-- Index of the last occurrence of a character in a list, if any. -/
def lastIdxOf (c : Char) : List Char → Option Nat
  | [] => none
  | x :: rest =>
    match lastIdxOf c rest with
    | some i => some (i + 1)
    | none => if x = c then some 0 else none

/-- Model of os.path.sep joining on the posix reference platform. -/
def joinPath (a b : String) : String := a ++ "/" ++ b

/-- Model of getParent (os.path.split, first component), posix separator. -/
def getParent (s : String) : String :=
  match lastIdxOf '/' s.toList with
  | none => ""
  | some i => String.mk (s.toList.take i)

/-- Model of getName (os.path.split, second component), posix separator. -/
def getName (s : String) : String :=
  match lastIdxOf '/' s.toList with
  | none => s
  | some i => String.mk (s.toList.drop (i + 1))

/-- Model of getExt with removeDot=True (the default, and the only form the
traversal code uses): os.path.splitext on a leaf name splits at the last dot
provided some earlier character of the name is not a dot (leading dots do not
start an extension); the leading dot is removed and the result lowercased. -/
def getExt (s : String) : String :=
  let chars := s.toList
  match lastIdxOf '.' chars with
  | none => ""
  | some i =>
    if (chars.take i).any (fun c => c != '.') then
      String.mk ((chars.drop (i + 1)).map Char.toLower)
    else ""

/- ---------------- Filesystem state ---------------- -/

/-- Filesystem state: regular files with byte content, and existing
directories.  Volume assignment (for cross-volume rename errors) is passed
separately to the operations that need it. -/
structure FS where
  files : List (String × Bytes)
  dirs : List String
deriving Repr, DecidableEq

def FS.isFile (fs : FS) (p : String) : Bool := (fs.files.lookup p).isSome

def FS.isDir (fs : FS) (p : String) : Bool := fs.dirs.contains p

/-- Model of os.path.exists. -/
def FS.exists (fs : FS) (p : String) : Bool := fs.isFile p || fs.isDir p

def FS.getContent (fs : FS) (p : String) : Option Bytes := fs.files.lookup p

/-- Create or truncate-and-write a file. -/
def FS.setFile (fs : FS) (p : String) (b : Bytes) : FS :=
  { fs with files := (p, b) :: fs.files.filter (fun kv => kv.1 != p) }

/-- Model of os.unlink. -/
def FS.removeFile (fs : FS) (p : String) : FS :=
  { fs with files := fs.files.filter (fun kv => kv.1 != p) }

/-- Errors raised by the embedded code.  The python code raises
OSFileRelatedError with distinct messages and plain OSError from the
primitives; each distinguishable condition is a constructor. -/
inductive PyErr where
  | srcNotFile      -- copy: source path does not exist or is not a file
  | srcNotExist     -- move: source path does not exist
  | allowDirsFalse  -- allowDirs is False but given a dir
  | destExists      -- O_EXCL EEXIST, or CopyFileW / MoveFileExW error 80
  | crossVolume     -- os.rename EXDEV, or MoveFileExW error 17
  | ioFault         -- injected I/O failure inside the streaming loop
  | openFailed      -- open / stat / primitive failure outside the taxonomy
  | assertFailed    -- an assertTrue in the source failed
deriving Repr, DecidableEq

/-- The SourceMissing condition of the error taxonomy in the spec: source
does not exist, or is a directory when directories are disallowed. -/
def PyErr.isSourceMissing : PyErr → Bool
  | .srcNotFile => true
  | .srcNotExist => true
  | .allowDirsFalse => true
  | _ => false

/-- Result of a stateful call: the state after the call, and the error that
was raised, if any (python exceptions do not roll back completed writes). -/
abbrev PyResult := FS × Option PyErr

inductive Platform where
  | win
  | linux
  | macos   -- any posix platform other than linux
deriving Repr, DecidableEq

/- ---------------- chunked reading ---------------- -/

/-- Fuel-driven worker for chunksOf; fuel at least the length of the data
makes it total, and structural recursion on the fuel keeps it kernel
reducible. -/
def chunksOfAux : Nat → Nat → Bytes → List Bytes
  | _, _, [] => []
  | 0, _, _ :: _ => []
  | fuel + 1, bufSize, b :: rest =>
    if bufSize = 0 then []
    else (b :: rest).take bufSize :: chunksOfAux fuel bufSize ((b :: rest).drop bufSize)

/-- The successive non-empty chunks a loop of f.read(bufSize) returns on the
given data; an empty read ends the loop, and read(0) returns empty at once. -/
def chunksOf (bufSize : Nat) (data : Bytes) : List Bytes :=
  chunksOfAux data.length bufSize data

/-- The chunk size of the streaming copy loop in _copyFilePosix. -/
def chunkSize64k : Nat := 64 * 1024

/-- Append a chunk to the end of an open destination file. -/
def FS.appendFile (fs : FS) (p : String) (b : Bytes) : FS :=
  fs.setFile p ((fs.getContent p).getD [] ++ b)

/-- The write half of the posix streaming loop: writes the chunks one at a
time onto dst.  fault = some k injects an I/O failure in place of the k-th
chunk write (or the read producing it); the writes already performed stay. -/
def writeChunks : Option Nat → FS → String → List Bytes → PyResult
  | _, fs, _, [] => (fs, none)
  | some 0, fs, _, _ :: _ => (fs, some .ioFault)
  | some (k + 1), fs, dst, c :: rest => writeChunks (some k) (fs.appendFile dst c) dst rest
  | none, fs, dst, c :: rest => writeChunks none (fs.appendFile dst c) dst rest

/- ---------------- copy (m1_files_wrappers.py) ---------------- -/

/-- Model of _copyFilePosix.  With overwrite, shutil.copy truncates and
streams (copying into the directory when the destination is one, per the
documented behavior of shutil.copy); without overwrite, the destination is
created empty by os.open with O_CREAT|O_EXCL|O_WRONLY — failing with EEXIST
when it already exists — and then the source is streamed onto it in 64 KiB
chunks.  Note the destination is created before the source is opened, and
nothing removes it when a later step fails. -/
def copyFilePosix (fault : Option Nat) (fs : FS) (srcFile destFile : String)
    (overwrite : Bool) : PyResult :=
  if overwrite then
    let realDst := if fs.isDir destFile then joinPath destFile (getName srcFile) else destFile
    match fs.getContent srcFile with
    | none => (fs, some .openFailed)
    | some content =>
      writeChunks fault (fs.setFile realDst []) realDst (chunksOf chunkSize64k content)
  else if fs.exists destFile then (fs, some .destExists)
  else
    match fs.getContent srcFile with
    | none => (fs.setFile destFile [], some .openFailed)
    | some content =>
      writeChunks fault (fs.setFile destFile []) destFile (chunksOf chunkSize64k content)

/-- Model of _copyFileWin, from the documented contract of the external
CopyFileW primitive: with failIfExists set (overwrite false) an existing
destination fails with error 80; otherwise the content is copied. -/
def copyFileWin (fs : FS) (srcFile destFile : String) (overwrite : Bool) : PyResult :=
  match fs.getContent srcFile with
  | none => (fs, some .openFailed)
  | some content =>
    if !overwrite && fs.exists destFile then (fs, some .destExists)
    else (fs.setFile destFile content, none)

/-- Model of makeDirs: os.makedirs wrapped so an already existing directory
is fine and a file at the location still raises.  Creation of intermediate
directories is elided — no claim below involves a missing intermediate. -/
def makeDirs (fs : FS) (p : String) : PyResult :=
  if fs.isFile p then (fs, some .openFailed)
  else if fs.isDir p then (fs, none)
  else ({ fs with dirs := p :: fs.dirs }, none)

/-- Sequencing of stateful python steps: a raised error aborts the rest. -/
def pyBind (r : PyResult) (f : FS → PyResult) : PyResult :=
  match r with
  | (fs1, some e) => (fs1, some e)
  | (fs1, none) => f fs1

/-- The assertTrue(exists(destFile)) at the end of copy and move. -/
def assertExists (r : PyResult) (p : String) : PyResult :=
  pyBind r fun fs2 => if fs2.exists p then (fs2, none) else (fs2, some .assertFailed)

/-- Model of copy.  Checks, in source order: isFile of the source (raising
the source-missing OSFileRelatedError otherwise), then the allowDirs check
(unreachable: a directory is never isFile), then optional parent creation,
then the identical-path no-op, then the platform primitive, then the
assertTrue that the destination exists.  doTrace / traceOnly /
keepSameModifiedTime are outside the byte-content model. -/
def copy (plat : Platform) (fault : Option Nat) (fs : FS) (srcFile destFile : String)
    (overwrite allowDirs createParent : Bool) : PyResult :=
  if !fs.isFile srcFile then (fs, some .srcNotFile)
  else if !allowDirs && fs.isDir srcFile then (fs, some .allowDirsFalse)
  else
    pyBind (if createParent && !fs.exists (getParent destFile)
            then makeDirs fs (getParent destFile) else (fs, none)) fun fs1 =>
      assertExists
        (if srcFile = destFile then (fs1, none)
         else match plat with
         | .win => copyFileWin fs1 srcFile destFile overwrite
         | _ => copyFilePosix fault fs1 srcFile destFile overwrite) destFile

/- ---------------- move (m1_files_wrappers.py) ---------------- -/

/-- Model of os.rename: fails with EXDEV across volumes, otherwise an atomic
rename replacing an existing destination file.  Renaming a directory onto an
existing path is modelled as a failure (only an empty directory destination
would succeed, and no claim exercises it). -/
def renameOS (vol : String → Nat) (fs : FS) (src dst : String) : PyResult :=
  if vol src != vol dst then (fs, some .crossVolume)
  else
    match fs.getContent src with
    | some c => ((fs.removeFile src).setFile dst c, none)
    | none =>
      if fs.isDir src then
        -- the entries below a renamed directory are not rewritten: no claim
        -- below reads inside a renamed directory
        if fs.exists dst then (fs, some .openFailed)
        else ({ fs with dirs := dst :: fs.dirs.filter (fun d => d != src) }, none)
      else (fs, some .openFailed)

/-- Model of the external MoveFileExW primitive, from its documented
contract.  replaceExisting is flag 1, copyAllowed flag 2; error codes:
80 destination exists, 17 different drives.  Returns the error code on
failure. -/
def moveFileExW (vol : String → Nat) (fs : FS) (src dst : String)
    (replaceExisting copyAllowed : Bool) : Except Nat FS :=
  match fs.getContent src with
  | none => .error 3
  | some c =>
    if fs.exists dst && !replaceExisting then .error 80
    else if vol src != vol dst && !copyAllowed then .error 17
    else .ok ((fs.removeFile src).setFile dst c)

/-- The distinguishable condition the raised OSFileRelatedError message
carries for a windows error code, per the _winErrs table. -/
def winErrToPyErr (err : Nat) : PyErr :=
  if err = 80 then .destExists else if err = 17 then .crossVolume else .openFailed

/-- Model of _moveFileWin: calls MoveFileExW with flags from overwrite and
warnBetweenDrives; when the code is 17 (different drives) and
warnBetweenDrives is set it alerts and retries once with warnBetweenDrives
False (so with the copy-allowed flag), otherwise the failure is raised. -/
def moveFileWin (vol : String → Nat) (fs : FS) (src dst : String)
    (overwrite warnBetweenDrives : Bool) : PyResult :=
  match moveFileExW vol fs src dst overwrite (!warnBetweenDrives) with
  | .ok fs2 => (fs2, none)
  | .error err =>
    if err = 17 && warnBetweenDrives then
      match moveFileExW vol fs src dst overwrite true with
      | .ok fs2 => (fs2, none)
      | .error err2 => (fs, some (winErrToPyErr err2))
    else (fs, some (winErrToPyErr err))

/-- The fallback branch of move: copy(srcFile, destFile, overwrite) with
default keyword arguments, assertTrue(exists(destFile)), then
os.unlink(srcFile). -/
def moveViaCopy (plat : Platform) (fault : Option Nat) (fs : FS)
    (srcFile destFile : String) (overwrite : Bool) : PyResult :=
  pyBind (copy plat fault fs srcFile destFile overwrite false false) fun fs2 =>
    if fs2.exists destFile then (fs2.removeFile srcFile, none)
    else (fs2, some .assertFailed)

/-- Model of move.  Checks, in source order: the source exists, the
allowDirs check, optional parent creation, the identical-path no-op, then
the platform dispatch — _moveFileWin on windows, a bare os.rename on linux
when overwrite is set, and copy-then-unlink otherwise — then the assertTrue
that the destination exists. -/
def move (plat : Platform) (vol : String → Nat) (fault : Option Nat) (fs : FS)
    (srcFile destFile : String) (overwrite warnBetweenDrives allowDirs createParent : Bool) :
    PyResult :=
  if !fs.exists srcFile then (fs, some .srcNotExist)
  else if !allowDirs && !fs.isFile srcFile then (fs, some .allowDirsFalse)
  else
    pyBind (if createParent && !fs.exists (getParent destFile)
            then makeDirs fs (getParent destFile) else (fs, none)) fun fs1 =>
      assertExists
        (if srcFile = destFile then (fs1, none)
         else match plat with
         | .win => moveFileWin vol fs1 srcFile destFile overwrite warnBetweenDrives
         | .linux =>
           if overwrite then renameOS vol fs1 srcFile destFile
           else moveViaCopy plat fault fs1 srcFile destFile overwrite
         | .macos => moveViaCopy plat fault fs1 srcFile destFile overwrite) destFile

/- ---------------- TraversalEngine (m2_files_listing.py) ---------------- -/

/-- A directory tree as os.walk / os.scandir observe it: each child of a
directory is either a regular file or a subdirectory.  Symlinks are not
modelled (the claims below do not concern followSymlinks). -/
inductive Entry where
  | file (name : String)
  | dir (name : String) (children : List Entry)
deriving Repr

/-- Total number of entries in a forest; the induction measure for the
traversal proofs. -/
def sizeEntries : List Entry → Nat
  | [] => 0
  | .file _ :: rest => 1 + sizeEntries rest
  | .dir _ cs :: rest => 1 + sizeEntries cs + sizeEntries rest

/-- The file names among the children of one directory, in scandir order. -/
def fileNamesOf : List Entry → List String
  | [] => []
  | .file n :: rest => n :: fileNamesOf rest
  | .dir _ _ :: rest => fileNamesOf rest

/-- Insertion into a sorted list of strings, for the python sorted(). -/
def insertSorted (x : String) : List String → List String
  | [] => [x]
  | y :: rest => if x ≤ y then x :: y :: rest else y :: insertSorted x rest

/-- Model of python sorted() on a list of strings. -/
def sortStr : List String → List String
  | [] => []
  | x :: rest => insertSorted x (sortStr rest)

/-- recurseFiles iterates fileNames as-is on windows and sorted otherwise. -/
def orderFiles (isWin : Bool) (names : List String) : List String :=
  if isWin then names else sortStr names

/-- The extension filter of recurseFiles: python `not allowedExts or
getExt(filename) in allowedExts` — None or an empty list are falsy and admit
everything. -/
def extOk (allowedExts : Option (List String)) (n : String) : Bool :=
  match allowedExts with
  | none => true
  | some exts => exts.isEmpty || exts.contains (getExt n)

/-- The pruning test of recurseFiles and recurseFileInfo: with no
fnFilterDirs every directory is kept. -/
def predPasses (pred : Option (String → Bool)) (p : String) : Bool :=
  match pred with
  | none => true
  | some f => f p

/-- The yields recurseFiles produces for one os.walk triple: the files of
the directory (filtered by the extension allowlist, sorted off windows),
then the directory itself when includeDirs.  The model yields the full-path
component of each (fullPath, name) pair. -/
def framePart (isWin : Bool) (allowedExts : Option (List String))
    (includeFiles includeDirs : Bool) (dirPath : String) (children : List Entry) :
    List String :=
  (if includeFiles then
    (orderFiles isWin (fileNamesOf children)).filterMap fun n =>
      if extOk allowedExts n then some (joinPath dirPath n) else none
  else []) ++ (if includeDirs then [dirPath] else [])

/-- The yields of the os.walk descents below one directory: subdirectories
surviving fnFilterDirs are visited depth-first, in order; pruned
subdirectories are removed from dirNames before descent, so walk never
produces a triple for them or for anything below them. -/
def descendKept (isWin : Bool) (allowedExts : Option (List String))
    (pred : Option (String → Bool)) (includeFiles includeDirs : Bool)
    (dirPath : String) : List Entry → List String
  | [] => []
  | .file _ :: rest => descendKept isWin allowedExts pred includeFiles includeDirs dirPath rest
  | .dir n cs :: rest =>
    (if predPasses pred (joinPath dirPath n) then
      framePart isWin allowedExts includeFiles includeDirs (joinPath dirPath n) cs
        ++ descendKept isWin allowedExts pred includeFiles includeDirs (joinPath dirPath n) cs
    else [])
      ++ descendKept isWin allowedExts pred includeFiles includeDirs dirPath rest

/-- Model of recurseFiles(root, ...) on a root directory whose children are
given: the root triple is processed first (os.walk topdown), then the kept
subtrees. -/
def recurseFiles (isWin : Bool) (allowedExts : Option (List String))
    (pred : Option (String → Bool)) (includeFiles includeDirs : Bool)
    (rootPath : String) (children : List Entry) : List String :=
  framePart isWin allowedExts includeFiles includeDirs rootPath children
    ++ descendKept isWin allowedExts pred includeFiles includeDirs rootPath children

/-- Spec-side characterization, from the words of the claim: the set of
regular files under root, recursively, whose extension (per getExt, the
function the claim names) is in the allowlist, where a directory rejected by
the predicate contributes nothing from its entire subtree. -/
def specFilesUnder (exts : List String) (pred : Option (String → Bool))
    (dirPath : String) : List Entry → List String
  | [] => []
  | .file n :: rest =>
    (if exts.contains (getExt n) then [joinPath dirPath n] else [])
      ++ specFilesUnder exts pred dirPath rest
  | .dir n cs :: rest =>
    (if predPasses pred (joinPath dirPath n) then
      specFilesUnder exts pred (joinPath dirPath n) cs
    else [])
      ++ specFilesUnder exts pred dirPath rest

/- ---------------- recurseFileInfo (m2_files_listing.py) ---------------- -/

/-- The python exception classification the except clause tests: OSError
instances against everything else. -/
inductive PyExc where
  | osErr
  | otherErr
deriving Repr, DecidableEq

/-- Outcome of iterating a recurseFileInfo generator to exhaustion: the
entries yielded before completion or abort, the (path, error) pairs passed
to fnDirectExceptionsTo, and the exception that escaped, if any. -/
structure RfiOut where
  yielded : List String
  redirected : List (String × PyExc)
  raised : Option PyExc
deriving Repr, DecidableEq

/-- The try/except around one recursed subdirectory of recurseFileInfo:
sub is the outcome of iterating the recursive generator for the
subdirectory at ep, r the outcome of the remaining siblings.  When the
sub-iteration raised, the exception is passed to fnDirectExceptionsTo when
that callback was supplied and the exception is an OSError — and iteration
continues with the siblings — and is re-raised otherwise, aborting the
generator (so r never runs). -/
def combineDir (haveCb : Bool) (ep : String) (dirYield : List String)
    (sub r : RfiOut) : RfiOut :=
  match sub.raised with
  | none => ⟨dirYield ++ sub.yielded ++ r.yielded, sub.redirected ++ r.redirected, r.raised⟩
  | some e =>
    if haveCb && e == .osErr then
      ⟨dirYield ++ sub.yielded ++ r.yielded,
        sub.redirected ++ [(ep, e)] ++ r.redirected, r.raised⟩
    else ⟨dirYield ++ sub.yielded, sub.redirected, some e⟩

/-- Model of the body of recurseFileInfo iterating os.scandir(root), with
recurse=True.  failAt lists the directories whose enumeration raises (the
fault model: errors surface while entering a directory).  For each child
directory: it is yielded first when not filesOnly, then — if fnFilterDirs
passes — the recursive generator runs inside try/except (combineDir).  File
children are yielded as encountered. -/
def rfiGo (failAt : List (String × PyExc)) (filesOnly : Bool)
    (pred : Option (String → Bool)) (haveCb : Bool) (path : String) :
    List Entry → RfiOut
  | [] => ⟨[], [], none⟩
  | .file n :: rest =>
    let r := rfiGo failAt filesOnly pred haveCb path rest
    ⟨joinPath path n :: r.yielded, r.redirected, r.raised⟩
  | .dir n cs :: rest =>
    let ep := joinPath path n
    let dirYield := if filesOnly then [] else [ep]
    if predPasses pred ep then
      combineDir haveCb ep dirYield
        (match failAt.lookup ep with
         | some e => ⟨[], [], some e⟩
         | none => rfiGo failAt filesOnly pred haveCb ep cs)
        (rfiGo failAt filesOnly pred haveCb path rest)
    else
      let r := rfiGo failAt filesOnly pred haveCb path rest
      ⟨dirYield ++ r.yielded, r.redirected, r.raised⟩

/-- Model of recurseFileInfo(root, ...): os.scandir(root) itself runs
outside any try in the top frame, so a failure enumerating the root
propagates to the caller whether or not a callback was supplied. -/
def recurseFileInfo (failAt : List (String × PyExc)) (filesOnly : Bool)
    (pred : Option (String → Bool)) (haveCb : Bool) (rootPath : String)
    (children : List Entry) : RfiOut :=
  match failAt.lookup rootPath with
  | some e => ⟨[], [], some e⟩
  | none => rfiGo failAt filesOnly pred haveCb rootPath children

/- ---------------- HashEngine (m3_files_higher.py) ---------------- -/

/-- Lowercase hexadecimal digit. -/
def hexDigitChar (n : Nat) : Char :=
  if n < 10 then Char.ofNat (48 + n) else Char.ofNat (87 + n)

/-- Fixed-width lowercase hex rendering, the python format used for crc
digests. -/
def toHexPad (width n : Nat) : String :=
  String.mk ((List.range width).map fun i => hexDigitChar ((n >>> (4 * (width - 1 - i))) &&& 15))

/-- One reflected CRC-32 bit step with the zlib polynomial. -/
def crc32BitStep (c : Nat) : Nat :=
  if c % 2 = 1 then (c >>> 1) ^^^ 0xedb88320 else c >>> 1

/-- One CRC-32 byte step. -/
def crc32ByteStep (c b : Nat) : Nat :=
  Nat.iterate crc32BitStep 8 (c ^^^ (b &&& 255))

/-- Model of zlib.crc32(data, value): the running crc is complemented,
folded over the bytes, and complemented again. -/
def crc32Z (data : Bytes) (value : Nat) : Nat :=
  (data.foldl crc32ByteStep (value ^^^ 0xffffffff)) ^^^ 0xffffffff

/-- One reflected CRC-64 bit step (ISO polynomial), for the stand-in
rendering of the external crc64 formatter. -/
def crc64BitStep (c : Nat) : Nat :=
  if c % 2 = 1 then (c >>> 1) ^^^ 0xd800000000000000 else c >>> 1

def crc64ByteStep (c b : Nat) : Nat :=
  Nat.iterate crc64BitStep 8 (c ^^^ (b &&& 255))

/-- CRC-64/ISO of a byte string, rendered as 16 hex digits; the concrete
rendering stands for the external formatter and no claim pins its value. -/
def crc64HexOfBytes (data : Bytes) : String :=
  toHexPad 16 ((data.foldl crc64ByteStep 0xffffffffffffffff) ^^^ 0xffffffffffffffff)

/-- Modelled from the spec: crc64_pair of the external crc64iso module is
absent from the repository; per the spec a digest accumulator state is a
pure function of the bytes fed to update, so the pair built by
crc64_pair(chunk, prev) is modelled as the accumulated bytes. -/
def crc64PairM (chunk : Bytes) (prev : Option Bytes) : Option Bytes :=
  some (prev.getD [] ++ chunk)

/-- Modelled from the spec: format_crc64_pair of the external crc64iso
module is absent from the repository; per the spec it formats an accumulated
crc pair as fixed-width hex.  It consumes a pair, so applying it to the
initial None accumulator — which is what the code does for zero-length
input, where crc64_pair is never called — yields no digest. -/
def formatCrc64PairM : Option Bytes → Option String
  | some bs => some (crc64HexOfBytes bs)
  | none => none

/- SHA-256 (FIPS 180-4), modelling hashlib.sha256 on the byte level so the
empty-input digest the spec pins can be computed.  Words are Nat taken
modulo 2^32. -/

def add32 (a b : Nat) : Nat := (a + b) % 4294967296

def rotr32 (n x : Nat) : Nat := ((x >>> n) ||| (x <<< (32 - n))) % 4294967296

def sha256S0 (x : Nat) : Nat := rotr32 7 x ^^^ rotr32 18 x ^^^ (x >>> 3)

def sha256S1 (x : Nat) : Nat := rotr32 17 x ^^^ rotr32 19 x ^^^ (x >>> 10)

def sha256B0 (x : Nat) : Nat := rotr32 2 x ^^^ rotr32 13 x ^^^ rotr32 22 x

def sha256B1 (x : Nat) : Nat := rotr32 6 x ^^^ rotr32 11 x ^^^ rotr32 25 x

def sha256Ch (x y z : Nat) : Nat := (x &&& y) ^^^ ((x ^^^ 0xffffffff) &&& z)

def sha256Maj (x y z : Nat) : Nat := (x &&& y) ^^^ (x &&& z) ^^^ (y &&& z)

def sha256K : List Nat :=
  [1116352408, 1899447441, 3049323471, 3921009573, 961987163, 1508970993,
   2453635748, 2870763221, 3624381080, 310598401, 607225278, 1426881987,
   1925078388, 2162078206, 2614888103, 3248222580, 3835390401, 4022224774,
   264347078, 604807628, 770255983, 1249150122, 1555081692, 1996064986,
   2554220882, 2821834349, 2952996808, 3210313671, 3336571891, 3584528711,
   113926993, 338241895, 666307205, 773529912, 1294757372, 1396182291,
   1695183700, 1986661051, 2177026350, 2456956037, 2730485921, 2820302411,
   3259730800, 3345764771, 3516065817, 3600352804, 4094571909, 275423344,
   430227734, 506948616, 659060556, 883997877, 958139571, 1322822218,
   1537002063, 1747873779, 1955562222, 2024104815, 2227730452, 2361852424,
   2428436474, 2756734187, 3204031479, 3329325298]

def sha256InitH : List Nat :=
  [1779033703, 3144134277, 1013904242, 2773480762,
   1359893119, 2600822924, 528734635, 1541459225]

/-- Extend a 16-word block schedule by the given number of words. -/
def extendSchedule : List Nat → Nat → List Nat
  | ws, 0 => ws
  | ws, k + 1 =>
    let i := ws.length
    let w := add32 (add32 (sha256S1 (ws.getD (i - 2) 0)) (ws.getD (i - 7) 0))
                   (add32 (sha256S0 (ws.getD (i - 15) 0)) (ws.getD (i - 16) 0))
    extendSchedule (ws ++ [w]) k

def sha256Round (st : Nat × Nat × Nat × Nat × Nat × Nat × Nat × Nat) (kw : Nat × Nat) :
    Nat × Nat × Nat × Nat × Nat × Nat × Nat × Nat :=
  match st, kw with
  | (a, b, c, d, e, f, g, h), (ki, wi) =>
    let t1 := add32 h (add32 (sha256B1 e) (add32 (sha256Ch e f g) (add32 ki wi)))
    let t2 := add32 (sha256B0 a) (sha256Maj a b c)
    (add32 t1 t2, a, b, c, add32 d t1, e, f, g)

def sha256Compress (h : List Nat) (block : List Nat) : List Nat :=
  let ws := extendSchedule block 48
  match (sha256K.zip ws).foldl sha256Round
      (h.getD 0 0, h.getD 1 0, h.getD 2 0, h.getD 3 0,
       h.getD 4 0, h.getD 5 0, h.getD 6 0, h.getD 7 0) with
  | (a, b, c, d, e, f, g, hh) =>
    [add32 (h.getD 0 0) a, add32 (h.getD 1 0) b, add32 (h.getD 2 0) c, add32 (h.getD 3 0) d,
     add32 (h.getD 4 0) e, add32 (h.getD 5 0) f, add32 (h.getD 6 0) g, add32 (h.getD 7 0) hh]

/-- Big-endian 64-bit length field. -/
def toBE64 (n : Nat) : Bytes :=
  [(n >>> 56) &&& 255, (n >>> 48) &&& 255, (n >>> 40) &&& 255, (n >>> 32) &&& 255,
   (n >>> 24) &&& 255, (n >>> 16) &&& 255, (n >>> 8) &&& 255, n &&& 255]

def padMessage (msg : Bytes) : Bytes :=
  msg ++ [0x80] ++ List.replicate ((64 + 55 - msg.length % 64) % 64) 0 ++ toBE64 (msg.length * 8)

/-- Pack bytes into big-endian 32-bit words. -/
def bytesToWords : Bytes → List Nat
  | b0 :: b1 :: b2 :: b3 :: rest => (((b0 * 256 + b1) * 256 + b2) * 256 + b3) :: bytesToWords rest
  | _ => []

def sha256Hex (data : Bytes) : String :=
  String.join (((chunksOf 16 (bytesToWords (padMessage data))).foldl sha256Compress
    sha256InitH).map (toHexPad 8))

/- ---------------- computeHash dispatch ---------------- -/

/-- The algorithm identifiers hasherFromString recognizes (the remaining
dispatch arms of _computeHashImpl handle crc32 and crc64 before it is
consulted). -/
def hashlibNames : List String :=
  ["sha1", "sha224", "sha256", "sha384", "sha512", "blake2b", "blake2s", "md5",
   "sha3_224", "sha3_256", "sha3_384", "sha3_512", "shake_128", "shake_256",
   "xxhash_32", "xxhash_64"]

def defaultBufSize : Nat := 0x40000

/-- Outcome of _computeHashImpl. -/
inductive HashOut where
  | digest (s : String)
  | errUnknownAlg   -- ValueError raised by hasherFromString
  | errFormatNone   -- crc64 formatter applied to the never-initialized None accumulator
deriving Repr, DecidableEq

/-- Model of _computeHashImpl on the bytes behind the open stream, returning
the chunks the read loop consumed together with the outcome.  The crc32 arm
folds zlib.crc32 over the chunks from the initial crc32(b"", 0) and masks
and formats the result; the crc64 arm folds crc64_pair over the chunks from
the initial None and formats the final accumulator; every other identifier
goes through hasherFromString — raising for an unknown identifier before any
read happens — and then update appends each chunk, hexdigest being a pure
function of the accumulated bytes per the documented hashlib contract,
interpreted by the digestFn parameter. -/
def computeHashImpl (digestFn : String → Bytes → String) (data : Bytes)
    (hasher : String) (buffersize : Nat) : List Bytes × HashOut :=
  if hasher = "crc32" then
    let chunks := chunksOf buffersize data
    (chunks, .digest (toHexPad 8
      ((chunks.foldl (fun c ch => crc32Z ch c) (crc32Z [] 0)) &&& 0xffffffff)))
  else if hasher = "crc64" then
    let chunks := chunksOf buffersize data
    match formatCrc64PairM (chunks.foldl (fun cur ch => crc64PairM ch cur) none) with
    | some s => (chunks, .digest s)
    | none => (chunks, .errFormatNone)
  else if hashlibNames.contains hasher then
    let chunks := chunksOf buffersize data
    (chunks, .digest (digestFn hasher (chunks.foldl (fun acc ch => acc ++ ch) [])))
  else ([], .errUnknownAlg)

/-- Model of computeHashBytes: an in-memory buffer streamed through the same
implementation. -/
def computeHashBytes (digestFn : String → Bytes → String) (b : Bytes)
    (hasher : String) (buffersize : Nat) : HashOut :=
  (computeHashImpl digestFn b hasher buffersize).2

/-- Outcome of computeHash on a path. -/
inductive FileHashOut where
  | out (o : HashOut)
  | errOpen
deriving Repr, DecidableEq

/-- Model of computeHash on a path, with its I/O trace: the first component
lists the files opened (open(path, "rb") runs before the dispatch on the
algorithm identifier), the second the chunks read.  A missing file fails at
open, before the identifier is examined. -/
def computeHash (digestFn : String → Bytes → String) (fs : FS) (path : String)
    (hasher : String) (buffersize : Nat) : List String × List Bytes × FileHashOut :=
  match fs.getContent path with
  | none => ([], [], .errOpen)
  | some data =>
    let r := computeHashImpl digestFn data hasher buffersize
    ([path], r.1, .out r.2)

/-- A concrete interpretation of the external digest functions that fixes
sha256 to the full SHA-256 above; the other external digests are not pinned
by any claim and are left at a dummy value.  Theorems about arbitrary
algorithms quantify over the interpretation instead of using this one. -/
def sha256Interp (alg : String) (data : Bytes) : String :=
  if alg = "sha256" then sha256Hex data else ""

/- ---------------- basic lemmas about the filesystem state ---------------- -/

theorem lookup_filter_ne {q p : String} {l : List (String × Bytes)} (h : q ≠ p) :
    List.lookup q (l.filter fun kv => kv.1 != p) = List.lookup q l := by
  induction l with
  | nil => rfl
  | cons kv rest ih =>
    by_cases hk : kv.1 = p
    · subst hk
      have hq : (q == kv.1) = false := by simp [h]
      simp [List.filter, List.lookup, hq, ih]
    · have hf : (kv.1 != p) = true := by simp [hk]
      by_cases hq : q = kv.1
      · simp [List.filter, hf, List.lookup, hq]
      · have h1 : (q == kv.1) = false := by simp [hq]
        simp [List.filter, hf, List.lookup, h1, ih]

theorem lookup_filter_self {p : String} {l : List (String × Bytes)} :
    List.lookup p (l.filter fun kv => kv.1 != p) = none := by
  induction l with
  | nil => rfl
  | cons kv rest ih =>
    by_cases hk : kv.1 = p
    · have hf : (kv.1 != p) = false := by simp [hk]
      simp [List.filter, hf, ih]
    · have hf : (kv.1 != p) = true := by simp [hk]
      have h1 : (p == kv.1) = false := by
        simp only [beq_eq_false_iff_ne, ne_eq]
        exact fun hq => hk hq.symm
      simp [List.filter, hf, List.lookup, h1, ih]

theorem getContent_setFile_self (fs : FS) (p : String) (b : Bytes) :
    (fs.setFile p b).getContent p = some b := by
  simp [FS.setFile, FS.getContent, List.lookup]

theorem getContent_setFile_ne (fs : FS) {p q : String} (b : Bytes) (h : q ≠ p) :
    (fs.setFile p b).getContent q = fs.getContent q := by
  have h1 : (q == p) = false := by simp [h]
  simp [FS.setFile, FS.getContent, List.lookup, h1, lookup_filter_ne h]

theorem getContent_removeFile_self (fs : FS) (p : String) :
    (fs.removeFile p).getContent p = none := by
  simp [FS.removeFile, FS.getContent, lookup_filter_self]

theorem getContent_removeFile_ne (fs : FS) {p q : String} (h : q ≠ p) :
    (fs.removeFile p).getContent q = fs.getContent q := by
  simp [FS.removeFile, FS.getContent, lookup_filter_ne h]

theorem dirs_setFile (fs : FS) (p : String) (b : Bytes) : (fs.setFile p b).dirs = fs.dirs := rfl

theorem dirs_removeFile (fs : FS) (p : String) : (fs.removeFile p).dirs = fs.dirs := rfl

theorem isDir_setFile (fs : FS) (p q : String) (b : Bytes) :
    (fs.setFile p b).isDir q = fs.isDir q := rfl

theorem isDir_removeFile (fs : FS) (p q : String) :
    (fs.removeFile p).isDir q = fs.isDir q := rfl

theorem isFile_setFile_self (fs : FS) (p : String) (b : Bytes) :
    (fs.setFile p b).isFile p = true := by
  simp [FS.isFile, FS.setFile, List.lookup]

theorem exists_setFile_self (fs : FS) (p : String) (b : Bytes) :
    (fs.setFile p b).exists p = true := by
  simp [FS.exists, isFile_setFile_self]

theorem isFile_getContent {fs : FS} {p : String} (h : fs.isFile p = true) :
    ∃ b, fs.getContent p = some b := by
  simpa [FS.isFile, FS.getContent, Option.isSome_iff_exists] using h

theorem getContent_isFile {fs : FS} {p : String} {b : Bytes} (h : fs.getContent p = some b) :
    fs.isFile p = true := by
  simp only [FS.isFile, FS.getContent] at h ⊢
  simp [h]

theorem isFile_exists {fs : FS} {p : String} (h : fs.isFile p = true) :
    fs.exists p = true := by
  simp [FS.exists, h]

theorem setFile_setFile (fs : FS) (p : String) (a b : Bytes) :
    (fs.setFile p a).setFile p b = fs.setFile p b := by
  have : ∀ l : List (String × Bytes),
      (l.filter fun kv => kv.1 != p).filter (fun kv => kv.1 != p)
        = l.filter fun kv => kv.1 != p := by
    intro l
    induction l with
    | nil => rfl
    | cons kv rest ih =>
      by_cases hk : kv.1 = p
      · have hf : (kv.1 != p) = false := by simp [hk]
        simp [List.filter, hf, ih]
      · have hf : (kv.1 != p) = true := by simp [hk]
        simp [List.filter, hf, ih]
  simp [FS.setFile, List.filter, this]

theorem appendFile_setFile (fs : FS) (dst : String) (init c : Bytes) :
    (fs.setFile dst init).appendFile dst c = fs.setFile dst (init ++ c) := by
  simp [FS.appendFile, getContent_setFile_self, setFile_setFile]

/- ---------------- lemmas about chunking and the streaming write ------------ -/

theorem chunksOfAux_join {b : Nat} (hb : 0 < b) :
    ∀ fuel data, List.length data ≤ fuel → (chunksOfAux fuel b data).flatten = data := by
  intro fuel
  induction fuel with
  | zero =>
    intro data h
    cases data with
    | nil => rfl
    | cons x rest => simp at h
  | succ n ih =>
    intro data h
    cases data with
    | nil => rfl
    | cons x rest =>
      have hb0 : ¬ b = 0 := Nat.pos_iff_ne_zero.mp hb
      have hlen : ((x :: rest).drop b).length ≤ n := by
        simp only [List.length_drop, List.length_cons]
        simp only [List.length_cons] at h
        omega
      simp only [chunksOfAux, hb0, if_false, List.flatten_cons]
      rw [ih _ hlen]
      exact List.take_append_drop b (x :: rest)

theorem chunksOf_join {b : Nat} (hb : 0 < b) (data : Bytes) :
    (chunksOf b data).flatten = data :=
  chunksOfAux_join hb data.length data le_rfl

theorem chunksOf_nil (b : Nat) : chunksOf b [] = [] := rfl

theorem chunksOf_ne_nil {b : Nat} (hb : 0 < b) {data : Bytes} (hd : data ≠ []) :
    chunksOf b data ≠ [] := by
  cases data with
  | nil => exact absurd rfl hd
  | cons x rest =>
    have hb0 : ¬ b = 0 := Nat.pos_iff_ne_zero.mp hb
    simp [chunksOf, chunksOfAux, hb0]

theorem writeChunks_none (fs : FS) (dst : String) :
    ∀ chunks init, writeChunks none (fs.setFile dst init) dst chunks
      = (fs.setFile dst (init ++ chunks.flatten), none) := by
  intro chunks
  induction chunks with
  | nil => intro init; simp [writeChunks]
  | cons c rest ih =>
    intro init
    simp only [writeChunks, appendFile_setFile, ih (init ++ c), List.flatten_cons,
      List.append_assoc]

theorem writeChunks_fault (fs : FS) (dst : String) :
    ∀ chunks k init, k < chunks.length →
      writeChunks (some k) (fs.setFile dst init) dst chunks
        = (fs.setFile dst (init ++ (chunks.take k).flatten), some .ioFault) := by
  intro chunks
  induction chunks with
  | nil => intro k init h; simp at h
  | cons c rest ih =>
    intro k init h
    cases k with
    | zero => simp [writeChunks]
    | succ k =>
      have hk : k < rest.length := by simp at h; omega
      simp only [writeChunks, appendFile_setFile, ih k (init ++ c) hk, List.take,
        List.flatten_cons, List.append_assoc]

theorem writeChunks_success (dst : String) :
    ∀ chunks fault (fs : FS) init fs2,
      writeChunks fault (fs.setFile dst init) dst chunks = (fs2, none) →
      fs2 = fs.setFile dst (init ++ chunks.flatten) := by
  intro chunks
  induction chunks with
  | nil =>
    intro fault fs init fs2 h
    cases fault <;> simp_all [writeChunks]
  | cons c rest ih =>
    intro fault fs init fs2 h
    match fault with
    | none =>
      rw [writeChunks_none] at h
      have := congrArg Prod.fst h
      simpa using this.symm
    | some 0 => simp [writeChunks] at h
    | some (k + 1) =>
      simp only [writeChunks, appendFile_setFile] at h
      have := ih (some k) fs (init ++ c) fs2 h
      simpa [List.append_assoc] using this

/- ---------------- success-shape lemmas for copy and move ---------------- -/

theorem chunkSize64k_pos : 0 < chunkSize64k := by norm_num [chunkSize64k]

theorem pyBind_ok (fs : FS) (f : FS → PyResult) : pyBind (fs, none) f = f fs := rfl

theorem pyBind_err (fs : FS) (e : PyErr) (f : FS → PyResult) :
    pyBind (fs, some e) f = (fs, some e) := rfl

theorem assertExists_err (fs : FS) (e : PyErr) (p : String) :
    assertExists (fs, some e) p = (fs, some e) := rfl

theorem assertExists_success {r : PyResult} {p : String} {fs2 : FS}
    (h : assertExists r p = (fs2, none)) : r = (fs2, none) ∧ fs2.exists p = true := by
  match r with
  | (fs3, some e) => simp [assertExists, pyBind] at h
  | (fs3, none) =>
    simp only [assertExists, pyBind] at h
    split at h
    · rename_i hex
      have : fs3 = fs2 := by simpa using congrArg Prod.fst h
      subst this
      exact ⟨rfl, hex⟩
    · simp at h

theorem assertExists_of {r : PyResult} {p : String} {fs2 : FS}
    (h : r = (fs2, none)) (hex : fs2.exists p = true) : assertExists r p = (fs2, none) := by
  subst h
  simp [assertExists, pyBind, hex]

theorem copyFilePosix_success {fault : Option Nat} {fs : FS} {src dst : String}
    {ow : Bool} {fs2 : FS} (h : copyFilePosix fault fs src dst ow = (fs2, none))
    (hdd : fs.isDir dst = false) :
    ∃ c, fs.getContent src = some c ∧ fs2 = fs.setFile dst c := by
  unfold copyFilePosix at h
  by_cases how : ow = true
  · subst how
    rw [if_pos rfl] at h
    rw [show (if fs.isDir dst then joinPath dst (getName src) else dst) = dst from by
      simp [hdd]] at h
    cases hc : fs.getContent src with
    | none => simp only [hc] at h; simp at h
    | some c =>
      simp only [hc] at h
      refine ⟨c, rfl, ?_⟩
      have := writeChunks_success dst (chunksOf chunkSize64k c) fault fs [] fs2 h
      simpa [chunksOf_join chunkSize64k_pos] using this
  · have how2 : ow = false := by simpa using how
    subst how2
    rw [if_neg (by simp)] at h
    split at h
    · simp at h
    · cases hc : fs.getContent src with
      | none => simp only [hc] at h; simp at h
      | some c =>
        simp only [hc] at h
        refine ⟨c, rfl, ?_⟩
        have := writeChunks_success dst (chunksOf chunkSize64k c) fault fs [] fs2 h
        simpa [chunksOf_join chunkSize64k_pos] using this

theorem copyFileWin_success {fs : FS} {src dst : String} {ow : Bool} {fs2 : FS}
    (h : copyFileWin fs src dst ow = (fs2, none)) :
    ∃ c, fs.getContent src = some c ∧ fs2 = fs.setFile dst c := by
  unfold copyFileWin at h
  cases hc : fs.getContent src with
  | none => simp only [hc] at h; simp at h
  | some c =>
    simp only [hc] at h
    split at h
    · simp at h
    · exact ⟨c, rfl, by simpa using (congrArg Prod.fst h).symm⟩

theorem copy_success {plat : Platform} {fault : Option Nat} {fs : FS} {src dst : String}
    {ow ad : Bool} {fs2 : FS} (h : copy plat fault fs src dst ow ad false = (fs2, none))
    (hne : src ≠ dst) (hdd : fs.isDir dst = false) :
    ∃ c, fs.getContent src = some c ∧ fs2 = fs.setFile dst c := by
  unfold copy at h
  split at h
  · simp at h
  · split at h
    · simp at h
    · rw [show (false && !fs.exists (getParent dst)) = false from Bool.false_and _,
        if_neg (by simp : ¬ (false = true)), pyBind_ok] at h
      try rw [if_neg hne] at h
      have hcore := (assertExists_success h).1
      cases plat with
      | win => exact copyFileWin_success hcore
      | linux => exact copyFilePosix_success hcore hdd
      | macos => exact copyFilePosix_success hcore hdd

theorem moveFileExW_ok {vol : String → Nat} {fs : FS} {src dst : String}
    {re ca : Bool} {fs2 : FS} (h : moveFileExW vol fs src dst re ca = .ok fs2) :
    ∃ c, fs.getContent src = some c ∧ fs2 = (fs.removeFile src).setFile dst c := by
  unfold moveFileExW at h
  cases hc : fs.getContent src with
  | none => simp only [hc] at h; simp at h
  | some c =>
    simp only [hc] at h
    split at h
    · simp at h
    · split at h
      · simp at h
      · exact ⟨c, rfl, by injection h with h1; exact h1.symm⟩

theorem moveFileWin_success {vol : String → Nat} {fs : FS} {src dst : String}
    {ow wbd : Bool} {fs2 : FS} (h : moveFileWin vol fs src dst ow wbd = (fs2, none)) :
    ∃ c, fs.getContent src = some c ∧ fs2 = (fs.removeFile src).setFile dst c := by
  unfold moveFileWin at h
  cases hr : moveFileExW vol fs src dst ow (!wbd) with
  | ok fs3 =>
    simp only [hr] at h
    have : fs3 = fs2 := by simpa using (congrArg Prod.fst h)
    exact this ▸ moveFileExW_ok hr
  | error err =>
    simp only [hr] at h
    split at h
    · cases hr2 : moveFileExW vol fs src dst ow true with
      | ok fs3 =>
        simp only [hr2] at h
        have : fs3 = fs2 := by simpa using (congrArg Prod.fst h)
        exact this ▸ moveFileExW_ok hr2
      | error err2 => simp only [hr2] at h; simp at h
    · simp at h

theorem moveViaCopy_success {plat : Platform} {fault : Option Nat} {fs : FS}
    {src dst : String} {ow : Bool} {fs2 : FS}
    (h : moveViaCopy plat fault fs src dst ow = (fs2, none))
    (hne : src ≠ dst) (hdd : fs.isDir dst = false) :
    ∃ c, fs.getContent src = some c ∧ fs2 = (fs.setFile dst c).removeFile src := by
  unfold moveViaCopy at h
  cases hr : copy plat fault fs src dst ow false false with
  | mk fs3 err =>
    rw [hr] at h
    cases err with
    | some e => rw [pyBind_err] at h; simp at h
    | none =>
      rw [pyBind_ok] at h
      obtain ⟨c, hc, he⟩ := copy_success hr hne hdd
      subst he
      rw [if_pos (exists_setFile_self fs dst c)] at h
      exact ⟨c, hc, by simpa using (congrArg Prod.fst h).symm⟩

/- ---------------- further forward-evaluation lemmas ---------------- -/

theorem isFile_eq_isSome (fs : FS) (p : String) :
    fs.isFile p = (fs.getContent p).isSome := rfl

theorem exists_eq_false_of {fs2 : FS} {p : String} (h1 : fs2.getContent p = none)
    (h2 : fs2.isDir p = false) : fs2.exists p = false := by
  simp [FS.exists, isFile_eq_isSome, h1, h2]

theorem renameOS_success {vol : String → Nat} {fs : FS} {src dst : String} {fs2 : FS}
    (h : renameOS vol fs src dst = (fs2, none)) (hsf : fs.isFile src = true) :
    ∃ c, fs.getContent src = some c ∧ fs2 = (fs.removeFile src).setFile dst c := by
  unfold renameOS at h
  split at h
  · simp at h
  · obtain ⟨c, hc⟩ := isFile_getContent hsf
    simp only [hc] at h
    exact ⟨c, hc, by simpa using (congrArg Prod.fst h).symm⟩

theorem move_success_shape {plat : Platform} {vol : String → Nat} {fault : Option Nat}
    {fs : FS} {src dst : String} {wbd ad : Bool} {fs2 : FS}
    (h : move plat vol fault fs src dst true wbd ad false = (fs2, none))
    (hne : src ≠ dst) (hds : fs.isDir src = false) (hdd : fs.isDir dst = false) :
    fs2.exists src = false ∧ fs2.getContent dst = fs.getContent src := by
  unfold move at h
  split at h
  · simp at h
  · split at h
    · simp at h
    · rename_i hex _
      have hsrcex : fs.exists src = true := by simpa using hex
      have hsf : fs.isFile src = true := by
        have h2 := hsrcex
        simp only [FS.exists, hds, Bool.or_false] at h2
        exact h2
      rw [show (false && !fs.exists (getParent dst)) = false from Bool.false_and _,
        if_neg (by simp : ¬ (false = true)), pyBind_ok] at h
      try rw [if_neg hne] at h
      have hcore := (assertExists_success h).1
      obtain ⟨c, hc⟩ := isFile_getContent hsf
      have post1 : ∀ fsr : FS, fsr = (fs.removeFile src).setFile dst c →
          fsr.exists src = false ∧ fsr.getContent dst = fs.getContent src := by
        intro fsr hr
        subst hr
        constructor
        · exact exists_eq_false_of
            (by rw [getContent_setFile_ne _ _ hne, getContent_removeFile_self]) hds
        · rw [getContent_setFile_self, hc]
      have post2 : ∀ fsr : FS, fsr = (fs.setFile dst c).removeFile src →
          fsr.exists src = false ∧ fsr.getContent dst = fs.getContent src := by
        intro fsr hr
        subst hr
        constructor
        · exact exists_eq_false_of (by rw [getContent_removeFile_self]) hds
        · rw [getContent_removeFile_ne _ (Ne.symm hne), getContent_setFile_self, hc]
      cases plat with
      | win =>
        obtain ⟨c2, hc2, he⟩ := moveFileWin_success hcore
        rw [hc] at hc2
        injection hc2 with hc2
        exact post1 fs2 (by rw [he, hc2])
      | linux =>
        rw [if_pos rfl] at hcore
        obtain ⟨c2, hc2, he⟩ := renameOS_success hcore hsf
        rw [hc] at hc2
        injection hc2 with hc2
        exact post1 fs2 (by rw [he, hc2])
      | macos =>
        obtain ⟨c2, hc2, he⟩ := moveViaCopy_success hcore hne hdd
        rw [hc] at hc2
        injection hc2 with hc2
        exact post2 fs2 (by rw [he, hc2])

theorem copyFilePosix_overwrite_eq {fs : FS} {src dst : String} {c : Bytes}
    (hc : fs.getContent src = some c) (hdd : fs.isDir dst = false) :
    copyFilePosix none fs src dst true = (fs.setFile dst c, none) := by
  unfold copyFilePosix
  rw [if_pos rfl]
  rw [show (if fs.isDir dst then joinPath dst (getName src) else dst) = dst from by simp [hdd]]
  simp only [hc]
  rw [writeChunks_none, chunksOf_join chunkSize64k_pos]
  simp

theorem copyFilePosix_fault_eq {fs : FS} {src dst : String} {c : Bytes} {k : Nat}
    (hc : fs.getContent src = some c) (hdx : fs.exists dst = false)
    (hk : k < (chunksOf chunkSize64k c).length) :
    copyFilePosix (some k) fs src dst false
      = (fs.setFile dst ((chunksOf chunkSize64k c).take k).flatten, some .ioFault) := by
  unfold copyFilePosix
  rw [if_neg (by simp : ¬ (false = true))]
  rw [if_neg (by simp [hdx])]
  simp only [hc]
  have := writeChunks_fault fs dst (chunksOf chunkSize64k c) k [] hk
  simpa using this

theorem copy_macos_overwrite_eq {fs : FS} {src dst : String} {c : Bytes}
    (hc : fs.getContent src = some c) (hds : fs.isDir src = false)
    (hdd : fs.isDir dst = false) (hne : src ≠ dst) :
    copy .macos none fs src dst true false false = (fs.setFile dst c, none) := by
  unfold copy
  rw [if_neg (by simp [getContent_isFile hc] : ¬ (!fs.isFile src) = true)]
  rw [if_neg (by simp [hds] : ¬ (!false && fs.isDir src) = true)]
  rw [show (false && !fs.exists (getParent dst)) = false from Bool.false_and _,
    if_neg (by simp : ¬ (false = true)), pyBind_ok, if_neg hne]
  show assertExists (copyFilePosix none fs src dst true) dst = _
  rw [copyFilePosix_overwrite_eq hc hdd]
  exact assertExists_of rfl (exists_setFile_self fs dst c)

/- ---------------- claim C1 ---------------- -/

/-- Claim C1 counterexample: a posix copy with overwrite=false whose
streaming loop fails before the first chunk is written raises, yet leaves
the exclusively created destination in place as an observable zero-byte
file — after the failure the destination exists and was not removed,
contradicting the claim that it either does not exist or has been removed. -/
theorem copy_midstream_failure_cex :
    (copy .linux (some 0) ⟨[("src", [1, 2, 3])], []⟩ "src" "dst" false false false).2
        = some .ioFault
      ∧ ((copy .linux (some 0) ⟨[("src", [1, 2, 3])], []⟩ "src" "dst" false false false).1).exists
          "dst" = true
      ∧ ((copy .linux (some 0) ⟨[("src", [1, 2, 3])], []⟩ "src" "dst" false false
          false).1).getContent "dst" = some [] := by
  decide

/-- Claim C1 (amended): when the posix streaming copy with overwrite=false
fails mid-stream after k chunks, the call raises and the destination is
left in place holding exactly the prefix of chunks written before the
failure (possibly zero bytes); nothing removes it.  Platforms other than
windows use this streaming fallback. -/
theorem copy_midstream_failure_leaves_prefix
    (plat : Platform) (fs : FS) (src dst : String) (c : Bytes) (k : Nat)
    (hplat : plat ≠ .win) (hc : fs.getContent src = some c)
    (hds : fs.isDir src = false) (hdx : fs.exists dst = false) (hne : src ≠ dst)
    (hk : k < (chunksOf chunkSize64k c).length) :
    copy plat (some k) fs src dst false false false
      = (fs.setFile dst ((chunksOf chunkSize64k c).take k).flatten, some .ioFault) := by
  unfold copy
  rw [if_neg (by simp [getContent_isFile hc] : ¬ (!fs.isFile src) = true)]
  rw [if_neg (by simp [hds] : ¬ (!false && fs.isDir src) = true)]
  rw [show (false && !fs.exists (getParent dst)) = false from Bool.false_and _,
    if_neg (by simp : ¬ (false = true)), pyBind_ok, if_neg hne]
  cases plat with
  | win => exact absurd rfl hplat
  | linux =>
    show assertExists (copyFilePosix (some k) fs src dst false) dst = _
    rw [copyFilePosix_fault_eq hc hdx hk]
    rfl
  | macos =>
    show assertExists (copyFilePosix (some k) fs src dst false) dst = _
    rw [copyFilePosix_fault_eq hc hdx hk]
    rfl

/-- Witness for the amended C1 theorem at a concrete input. -/
theorem copy_midstream_failure_leaves_prefix_witness :
    copy .linux (some 0) ⟨[("s", [9])], []⟩ "s" "d" false false false
      = ((⟨[("s", [9])], []⟩ : FS).setFile "d"
          ((chunksOf chunkSize64k [9]).take 0).flatten, some .ioFault) :=
  copy_midstream_failure_leaves_prefix .linux ⟨[("s", [9])], []⟩ "s" "d" [9] 0
    (by decide) (by decide) (by decide) (by decide) (by decide) (by decide)

/- ---------------- claim C2 ---------------- -/

/-- Claim C2 counterexample: with src = dst, the destination exists and
overwrite is false, yet copy returns successfully (the identical-path
no-op) instead of raising DestinationConflict as the claim, quantified over
every src and dst, requires. -/
theorem copy_identical_path_no_conflict_cex :
    copy .linux none ⟨[("f", [7])], []⟩ "f" "f" false false false
        = (⟨[("f", [7])], []⟩, none)
      ∧ (⟨[("f", [7])], []⟩ : FS).exists "f" = true := by
  decide

/-- Claim C2 (amended): for a source that is an existing regular file and a
distinct existing destination, copy and move with overwrite=false raise the
DestinationConflict condition (destExists) and return the filesystem state
unchanged, so the destination content is untouched byte for byte.  The
amendment adds src distinct from dst — the identical-path no-op — and that
the source is an existing regular file, both of which the original
universal quantification includes. -/
theorem copy_move_destination_conflict
    (plat : Platform) (vol : String → Nat) (fault : Option Nat) (fs : FS) (src dst : String)
    (hsf : fs.isFile src = true) (hds : fs.isDir src = false)
    (hdx : fs.exists dst = true) (hne : src ≠ dst) :
    copy plat fault fs src dst false false false = (fs, some .destExists)
      ∧ move plat vol fault fs src dst false false false false = (fs, some .destExists) := by
  obtain ⟨c, hc⟩ := isFile_getContent hsf
  have hcopy : ∀ p : Platform, copy p fault fs src dst false false false
      = (fs, some .destExists) := by
    intro p
    unfold copy
    rw [if_neg (by simp [hsf] : ¬ (!fs.isFile src) = true)]
    rw [if_neg (by simp [hds] : ¬ (!false && fs.isDir src) = true)]
    rw [show (false && !fs.exists (getParent dst)) = false from Bool.false_and _,
      if_neg (by simp : ¬ (false = true)), pyBind_ok, if_neg hne]
    cases p with
    | win =>
      show assertExists (copyFileWin fs src dst false) dst = _
      unfold copyFileWin
      simp only [hc]
      rw [if_pos (by simp [hdx])]
      rfl
    | linux =>
      show assertExists (copyFilePosix fault fs src dst false) dst = _
      unfold copyFilePosix
      rw [if_neg (by simp : ¬ (false = true)), if_pos hdx]
      rfl
    | macos =>
      show assertExists (copyFilePosix fault fs src dst false) dst = _
      unfold copyFilePosix
      rw [if_neg (by simp : ¬ (false = true)), if_pos hdx]
      rfl
  refine ⟨hcopy plat, ?_⟩
  unfold move
  rw [if_neg (by simp [isFile_exists hsf] : ¬ (!fs.exists src) = true)]
  rw [if_neg (by simp [hsf] : ¬ (!false && !fs.isFile src) = true)]
  rw [show (false && !fs.exists (getParent dst)) = false from Bool.false_and _,
    if_neg (by simp : ¬ (false = true)), pyBind_ok, if_neg hne]
  cases plat with
  | win =>
    show assertExists (moveFileWin vol fs src dst false false) dst = _
    unfold moveFileWin
    rw [show moveFileExW vol fs src dst false (!false) = .error 80 from by
      unfold moveFileExW
      simp only [hc]
      rw [if_pos (by simp [hdx])]]
    rfl
  | linux =>
    show assertExists (if false = true then renameOS vol fs src dst
      else moveViaCopy .linux fault fs src dst false) dst = _
    rw [if_neg (by simp : ¬ (false = true))]
    unfold moveViaCopy
    rw [hcopy .linux, pyBind_err]
    rfl
  | macos =>
    show assertExists (moveViaCopy .macos fault fs src dst false) dst = _
    unfold moveViaCopy
    rw [hcopy .macos, pyBind_err]
    rfl

/-- Witness for the amended C2 theorem at a concrete input. -/
theorem copy_move_destination_conflict_witness :
    copy .linux none ⟨[("a", [1]), ("b", [2])], []⟩ "a" "b" false false false
        = (⟨[("a", [1]), ("b", [2])], []⟩, some .destExists)
      ∧ move .linux (fun _ => 0) none ⟨[("a", [1]), ("b", [2])], []⟩ "a" "b"
          false false false false = (⟨[("a", [1]), ("b", [2])], []⟩, some .destExists) :=
  copy_move_destination_conflict .linux (fun _ => 0) none ⟨[("a", [1]), ("b", [2])], []⟩
    "a" "b" (by decide) (by decide) (by decide) (by decide)

/- ---------------- claim C3 ---------------- -/

/-- Claim C3 counterexample: on linux with overwrite=true, a move whose
source and destination are on different volumes raises the crossVolume
error outright — os.rename fails with EXDEV and no copy-then-delete
fallback runs, contradicting the claim that move recovers from a
cross-volume rename failure. -/
theorem move_linux_cross_volume_fails_cex :
    move .linux (fun p => if p = "b" then 1 else 0) none ⟨[("a", [5])], []⟩ "a" "b"
      true false false false = (⟨[("a", [5])], []⟩, some .crossVolume) := by
  decide

/-- Claim C3 (amended): first, whenever move with overwrite=true succeeds
on distinct file paths, the source no longer exists and the destination
content equals the pre-move source content, on every platform.  Second, the
copy-then-delete fallback is not a recovery from a failed rename: it is the
unconditional strategy of the non-windows, non-(linux with overwrite) path —
on macos the move succeeds by copy-then-delete whatever the volumes, while
on linux with overwrite=true a cross-volume rename failure propagates (see
the counterexample). -/
theorem move_success_postcondition_and_fallback :
    (∀ (plat : Platform) (vol : String → Nat) (fault : Option Nat) (fs : FS)
        (src dst : String) (wbd ad : Bool) (fs2 : FS),
      src ≠ dst → fs.isDir src = false → fs.isDir dst = false →
      move plat vol fault fs src dst true wbd ad false = (fs2, none) →
      fs2.exists src = false ∧ fs2.getContent dst = fs.getContent src)
    ∧ (∀ (vol : String → Nat) (fs : FS) (src dst : String) (c : Bytes),
      fs.getContent src = some c → fs.isDir src = false → fs.isDir dst = false →
      src ≠ dst →
      move .macos vol none fs src dst true false false false
        = ((fs.setFile dst c).removeFile src, none)) := by
  constructor
  · intro plat vol fault fs src dst wbd ad fs2 hne hds hdd h
    exact move_success_shape h hne hds hdd
  · intro vol fs src dst c hc hds hdd hne
    have hsf : fs.isFile src = true := getContent_isFile hc
    unfold move
    rw [if_neg (by simp [isFile_exists hsf] : ¬ (!fs.exists src) = true)]
    rw [if_neg (by simp [hsf] : ¬ (!false && !fs.isFile src) = true)]
    rw [show (false && !fs.exists (getParent dst)) = false from Bool.false_and _,
      if_neg (by simp : ¬ (false = true)), pyBind_ok, if_neg hne]
    show assertExists (moveViaCopy .macos none fs src dst true) dst = _
    unfold moveViaCopy
    rw [copy_macos_overwrite_eq hc hds hdd hne, pyBind_ok,
      if_pos (exists_setFile_self fs dst c)]
    have hex2 : ((fs.setFile dst c).removeFile src).exists dst = true := by
      have hg : ((fs.setFile dst c).removeFile src).getContent dst = some c := by
        rw [getContent_removeFile_ne _ (Ne.symm hne), getContent_setFile_self]
      exact isFile_exists (getContent_isFile hg)
    exact assertExists_of rfl hex2

/-- Witness for the amended C3 theorem at concrete inputs, using a volume
map that puts source and destination on different volumes. -/
theorem move_success_postcondition_and_fallback_witness :
    ((⟨[("b", [5])], []⟩ : FS).exists "a" = false
      ∧ (⟨[("b", [5])], []⟩ : FS).getContent "b"
          = (⟨[("a", [5])], []⟩ : FS).getContent "a")
    ∧ move .macos (fun p => if p = "b" then 1 else 0) none ⟨[("a", [5])], []⟩ "a" "b"
        true false false false
      = (((⟨[("a", [5])], []⟩ : FS).setFile "b" [5]).removeFile "a", none) :=
  ⟨by
    have := move_success_postcondition_and_fallback.1 .macos
      (fun p => if p = "b" then 1 else 0) none ⟨[("a", [5])], []⟩ "a" "b" false false
      ⟨[("b", [5])], []⟩ (by decide) (by decide) (by decide) (by decide)
    exact this,
   move_success_postcondition_and_fallback.2 (fun p => if p = "b" then 1 else 0)
     ⟨[("a", [5])], []⟩ "a" "b" [5] (by decide) (by decide) (by decide) (by decide)⟩

/- ---------------- claim C4 ---------------- -/

/-- Claim C4 (code bug): copy checks isFile(srcFile) before its allowDirs
check, so an existing directory source raises the SourceMissing condition
even with allowDirs=true — the allowDirs check in copy is unreachable —
while move with allowDirs=true accepts a directory source without raising.
The claim (and the spec) say allowDirectories=true waives the regular-file
requirement for both. -/
theorem copy_allowDirs_rejects_existing_directory :
    copy .linux none ⟨[], ["d"]⟩ "d" "dst" true true false
        = (⟨[], ["d"]⟩, some .srcNotFile)
      ∧ PyErr.isSourceMissing .srcNotFile = true
      ∧ (move .linux (fun _ => 0) none ⟨[], ["d"]⟩ "d" "dst2" true false true false).2
          = none := by
  decide

/- ---------------- lemmas for the hash dispatch ---------------- -/

theorem xor_xor_self (a m : Nat) : a ^^^ m ^^^ m = a := by
  rw [Nat.xor_assoc, Nat.xor_self, Nat.xor_zero]

theorem crc32Z_nil (v : Nat) : crc32Z [] v = v := by
  simp only [crc32Z, List.foldl_nil, xor_xor_self]

theorem crc32Z_append (a b : Bytes) (v : Nat) :
    crc32Z (a ++ b) v = crc32Z b (crc32Z a v) := by
  simp only [crc32Z, List.foldl_append, xor_xor_self]

theorem crc32_fold (chunks : List Bytes) :
    ∀ v, chunks.foldl (fun c ch => crc32Z ch c) v = crc32Z chunks.flatten v := by
  induction chunks with
  | nil => intro v; simp [crc32Z_nil]
  | cons c rest ih =>
    intro v
    simp only [List.foldl_cons, List.flatten_cons, ih, crc32Z_append]

theorem foldl_append_eq (chunks : List Bytes) :
    ∀ init : Bytes, chunks.foldl (fun acc ch => acc ++ ch) init = init ++ chunks.flatten := by
  induction chunks with
  | nil => intro init; simp
  | cons c rest ih =>
    intro init
    simp only [List.foldl_cons, List.flatten_cons, ih, List.append_assoc]

theorem crc64_fold_some (chunks : List Bytes) :
    ∀ bs : Bytes, chunks.foldl (fun cur ch => crc64PairM ch cur) (some bs)
      = some (bs ++ chunks.flatten) := by
  induction chunks with
  | nil => intro bs; simp
  | cons c rest ih =>
    intro bs
    rw [List.foldl_cons]
    show List.foldl (fun cur ch => crc64PairM ch cur) (some (bs ++ c)) rest = _
    rw [ih, List.flatten_cons, List.append_assoc]

theorem crc64_fold_none {chunks : List Bytes} (h : chunks ≠ []) :
    chunks.foldl (fun cur ch => crc64PairM ch cur) none = some chunks.flatten := by
  cases chunks with
  | nil => exact absurd rfl h
  | cons c rest =>
    rw [List.foldl_cons]
    show List.foldl (fun cur ch => crc64PairM ch cur) (some c) rest = _
    rw [crc64_fold_some, List.flatten_cons]

/- ---------------- claim C7 ---------------- -/

/-- Claim C7: the digest _computeHashImpl produces is independent of the
chunk size used to stream the input, for every positive pair of chunk
sizes, every input and every algorithm arm — crc32 and crc64 by the
streaming-composition of their accumulators, and every hasherFromString
algorithm for every interpretation digestFn of the external digest
functions satisfying the hashlib update-appends contract built into the
model; the digest is a function of the concatenated bytes only. -/
theorem computeHash_buffer_size_independent
    (digestFn : String → Bytes → String) (data : Bytes) (hasher : String)
    (b1 b2 : Nat) (h1 : 0 < b1) (h2 : 0 < b2) :
    (computeHashImpl digestFn data hasher b1).2
      = (computeHashImpl digestFn data hasher b2).2 := by
  unfold computeHashImpl
  by_cases hcrc : hasher = "crc32"
  · simp only [if_pos hcrc, crc32_fold, chunksOf_join h1, chunksOf_join h2]
  · rw [if_neg hcrc, if_neg hcrc]
    by_cases hcrc64 : hasher = "crc64"
    · simp only [if_pos hcrc64]
      by_cases hdat : data = []
      · subst hdat; rfl
      · rw [crc64_fold_none (chunksOf_ne_nil h1 hdat),
          crc64_fold_none (chunksOf_ne_nil h2 hdat),
          chunksOf_join h1, chunksOf_join h2]
        rfl
    · rw [if_neg hcrc64, if_neg hcrc64]
      by_cases hlib : hashlibNames.contains hasher = true
      · simp only [hlib, if_true, foldl_append_eq, chunksOf_join h1, chunksOf_join h2,
          List.nil_append]
      · simp only [hlib]
        rfl

/-- Witness for C7 at a concrete input and two concrete chunk sizes. -/
theorem computeHash_buffer_size_independent_witness :
    (computeHashImpl sha256Interp [1, 2, 3] "sha256" 1).2
      = (computeHashImpl sha256Interp [1, 2, 3] "sha256" 2).2 :=
  computeHash_buffer_size_independent sha256Interp [1, 2, 3] "sha256" 1 2
    (by decide) (by decide)

/- ---------------- claim C8 ---------------- -/

/-- Claim C8 (code bug): computeHash of a zero-length buffer with sha256
does return the well-known empty-input digest, but the crc64 arm never
calls crc64_pair on zero-length input, so the final formatter receives the
uninitialized None accumulator instead of a pair and yields no digest — a
special case contradicting the claim for the crc64 member of the supported
set. -/
theorem computeHash_empty_input_digests :
    computeHashBytes sha256Interp [] "sha256" defaultBufSize
        = .digest "e3b0c44298fc1c149afbf4c8996fb92427ae41e4649b934ca495991b7852b855"
      ∧ computeHashBytes sha256Interp [] "crc64" defaultBufSize = .errFormatNone := by
  decide

/- ---------------- claim C9 ---------------- -/

/-- Claim C9 counterexample: computeHash on an existing file with an
unrecognized algorithm identifier rejects the identifier, but only after
the file has been opened — the list of opened files is not empty,
contradicting the claim that no file is opened before the rejection. -/
theorem computeHash_unknown_alg_opens_file_cex :
    computeHash sha256Interp ⟨[("f", [1, 2])], []⟩ "f" "nosuchalg" 4
        = (["f"], [], .out .errUnknownAlg)
      ∧ (computeHash sha256Interp ⟨[("f", [1, 2])], []⟩ "f" "nosuchalg" 4).1 ≠ [] := by
  decide

/-- Claim C9 (amended): for a path holding an existing file and an
identifier outside the supported set, computeHash raises the unknown
algorithm error after opening the file but before reading any bytes: the
trace shows exactly one opened file and no reads. -/
theorem computeHash_unknown_alg_rejected_before_read
    (digestFn : String → Bytes → String) (fs : FS) (path : String) (data : Bytes)
    (alg : String) (bufsize : Nat) (hdata : fs.getContent path = some data)
    (h32 : alg ≠ "crc32") (h64 : alg ≠ "crc64")
    (hlib : hashlibNames.contains alg = false) :
    computeHash digestFn fs path alg bufsize = ([path], [], .out .errUnknownAlg) := by
  unfold computeHash
  simp only [hdata]
  unfold computeHashImpl
  rw [if_neg h32, if_neg h64, if_neg (by simp only [hlib]; simp)]

/-- Witness for the amended C9 theorem at a concrete input. -/
theorem computeHash_unknown_alg_rejected_before_read_witness :
    computeHash sha256Interp ⟨[("g", [3])], []⟩ "g" "md6" 16
      = (["g"], [], .out .errUnknownAlg) :=
  computeHash_unknown_alg_rejected_before_read sha256Interp ⟨[("g", [3])], []⟩ "g" [3]
    "md6" 16 (by decide) (by decide) (by decide) (by decide)

/- ---------------- lemmas for the traversal engine ---------------- -/

theorem mem_fileNamesOf {nm : String} : ∀ l : List Entry,
    nm ∈ fileNamesOf l ↔ Entry.file nm ∈ l := by
  intro l
  induction l with
  | nil => simp [fileNamesOf]
  | cons e rest ih =>
    cases e with
    | file n => simp [fileNamesOf, ih]
    | dir n cs => simp [fileNamesOf, ih]

theorem mem_insertSorted {x a : String} : ∀ l, x ∈ insertSorted a l ↔ x = a ∨ x ∈ l := by
  intro l
  induction l with
  | nil => simp [insertSorted]
  | cons y rest ih =>
    simp only [insertSorted]
    split
    · simp
    · simp only [List.mem_cons, ih]
      tauto

theorem mem_sortStr {x : String} : ∀ l, x ∈ sortStr l ↔ x ∈ l := by
  intro l
  induction l with
  | nil => simp [sortStr]
  | cons y rest ih => simp [sortStr, mem_insertSorted, ih]

theorem mem_orderFiles {x : String} (isWin : Bool) (l : List String) :
    x ∈ orderFiles isWin l ↔ x ∈ l := by
  cases isWin <;> simp [orderFiles, mem_sortStr]

theorem mem_framePart {p : String} (isWin : Bool) (aexts : Option (List String))
    (dirPath : String) (l : List Entry) :
    p ∈ framePart isWin aexts true false dirPath l
      ↔ ∃ nm, Entry.file nm ∈ l ∧ extOk aexts nm = true ∧ p = joinPath dirPath nm := by
  simp only [framePart]
  rw [if_pos trivial, if_neg (by simp : ¬ (false = true)), List.append_nil, List.mem_filterMap]
  constructor
  · rintro ⟨nm, hmem, hf⟩
    rw [mem_orderFiles, mem_fileNamesOf] at hmem
    by_cases he : extOk aexts nm = true
    · rw [if_pos he] at hf
      exact ⟨nm, hmem, he, (Option.some_inj.mp hf).symm⟩
    · rw [if_neg he] at hf
      simp at hf
  · rintro ⟨nm, hmem, he, hp⟩
    refine ⟨nm, ?_, ?_⟩
    · rw [mem_orderFiles, mem_fileNamesOf]
      exact hmem
    · rw [if_pos he, hp]

theorem mem_descendKept {p : String} (isWin : Bool) (aexts : Option (List String))
    (pred : Option (String → Bool)) (incF incD : Bool) (dirPath : String) :
    ∀ l : List Entry, p ∈ descendKept isWin aexts pred incF incD dirPath l
      ↔ ∃ n cs, Entry.dir n cs ∈ l ∧ predPasses pred (joinPath dirPath n) = true
          ∧ p ∈ recurseFiles isWin aexts pred incF incD (joinPath dirPath n) cs := by
  intro l
  induction l with
  | nil => simp [descendKept]
  | cons e rest ih =>
    cases e with
    | file n =>
      simp only [descendKept]
      rw [ih]
      constructor
      · rintro ⟨n2, cs, hm, hpred, hp⟩
        exact ⟨n2, cs, List.mem_cons_of_mem _ hm, hpred, hp⟩
      · rintro ⟨n2, cs, hm, hpred, hp⟩
        rcases List.mem_cons.mp hm with heq | hm2
        · exact Entry.noConfusion heq
        · exact ⟨n2, cs, hm2, hpred, hp⟩
    | dir n cs =>
      simp only [descendKept]
      rw [List.mem_append, ih]
      constructor
      · rintro (hin | ⟨n2, cs2, hm, hpred, hp⟩)
        · by_cases hpp : predPasses pred (joinPath dirPath n) = true
          · rw [if_pos hpp] at hin
            exact ⟨n, cs, List.mem_cons_self _ _, hpp, by rw [recurseFiles]; exact hin⟩
          · rw [if_neg hpp] at hin
            simp at hin
        · exact ⟨n2, cs2, List.mem_cons_of_mem _ hm, hpred, hp⟩
      · rintro ⟨n2, cs2, hm, hpred, hp⟩
        rcases List.mem_cons.mp hm with heq | hm2
        · injection heq with h1 h2
          subst h1
          subst h2
          left
          rw [if_pos hpred]
          rw [recurseFiles] at hp
          exact hp
        · right
          exact ⟨n2, cs2, hm2, hpred, hp⟩

theorem mem_specFilesUnder {p : String} (exts : List String)
    (pred : Option (String → Bool)) (dirPath : String) :
    ∀ l : List Entry, p ∈ specFilesUnder exts pred dirPath l
      ↔ (∃ nm, Entry.file nm ∈ l ∧ exts.contains (getExt nm) = true
            ∧ p = joinPath dirPath nm)
        ∨ (∃ n cs, Entry.dir n cs ∈ l ∧ predPasses pred (joinPath dirPath n) = true
            ∧ p ∈ specFilesUnder exts pred (joinPath dirPath n) cs) := by
  intro l
  induction l with
  | nil => simp [specFilesUnder]
  | cons e rest ih =>
    cases e with
    | file n =>
      simp only [specFilesUnder]
      rw [List.mem_append, ih]
      constructor
      · rintro (hin | (⟨nm, hm, he, hp⟩ | ⟨n2, cs2, hm, hpred, hp⟩))
        · by_cases he : exts.contains (getExt n) = true
          · rw [if_pos he] at hin
            simp only [List.mem_singleton] at hin
            exact Or.inl ⟨n, List.mem_cons_self _ _, he, hin⟩
          · rw [if_neg he] at hin
            simp at hin
        · exact Or.inl ⟨nm, List.mem_cons_of_mem _ hm, he, hp⟩
        · exact Or.inr ⟨n2, cs2, List.mem_cons_of_mem _ hm, hpred, hp⟩
      · rintro (⟨nm, hm, he, hp⟩ | ⟨n2, cs2, hm, hpred, hp⟩)
        · rcases List.mem_cons.mp hm with heq | hm2
          · injection heq with h1
            subst h1
            left
            rw [if_pos he]
            simp [hp]
          · exact Or.inr (Or.inl ⟨nm, hm2, he, hp⟩)
        · rcases List.mem_cons.mp hm with heq | hm2
          · exact Entry.noConfusion heq
          · exact Or.inr (Or.inr ⟨n2, cs2, hm2, hpred, hp⟩)
    | dir n cs =>
      simp only [specFilesUnder]
      rw [List.mem_append, ih]
      constructor
      · rintro (hin | (⟨nm, hm, he, hp⟩ | ⟨n2, cs2, hm, hpred, hp⟩))
        · by_cases hpp : predPasses pred (joinPath dirPath n) = true
          · rw [if_pos hpp] at hin
            exact Or.inr ⟨n, cs, List.mem_cons_self _ _, hpp, hin⟩
          · rw [if_neg hpp] at hin
            simp at hin
        · exact Or.inl ⟨nm, List.mem_cons_of_mem _ hm, he, hp⟩
        · exact Or.inr ⟨n2, cs2, List.mem_cons_of_mem _ hm, hpred, hp⟩
      · rintro (⟨nm, hm, he, hp⟩ | ⟨n2, cs2, hm, hpred, hp⟩)
        · rcases List.mem_cons.mp hm with heq | hm2
          · exact Entry.noConfusion heq
          · exact Or.inr (Or.inl ⟨nm, hm2, he, hp⟩)
        · rcases List.mem_cons.mp hm with heq | hm2
          · injection heq with h1 h2
            subst h1
            subst h2
            left
            rw [if_pos hpred]
            exact hp
          · exact Or.inr (Or.inr ⟨n2, cs2, hm2, hpred, hp⟩)

theorem sizeEntries_lt_of_mem_dir {n : String} {cs : List Entry} :
    ∀ l : List Entry, Entry.dir n cs ∈ l → sizeEntries cs < sizeEntries l := by
  intro l
  induction l with
  | nil => intro h; simp at h
  | cons e rest ih =>
    intro h
    rcases List.mem_cons.mp h with heq | hm
    · rw [← heq]
      simp only [sizeEntries]
      omega
    · have := ih hm
      cases e <;> simp only [sizeEntries] <;> omega

theorem extOk_of_ne_nil {exts : List String} (hne : exts ≠ []) (nm : String) :
    extOk (some exts) nm = exts.contains (getExt nm) := by
  have hie : exts.isEmpty = false := by
    cases exts with
    | nil => exact absurd rfl hne
    | cons a rest => rfl
  simp [extOk, hie]

theorem recurse_spec_aux (isWin : Bool) (exts : List String)
    (pred : Option (String → Bool)) (hne : exts ≠ []) :
    ∀ N, ∀ l : List Entry, sizeEntries l ≤ N → ∀ dirPath p,
      (p ∈ recurseFiles isWin (some exts) pred true false dirPath l
        ↔ p ∈ specFilesUnder exts pred dirPath l) := by
  intro N
  induction N with
  | zero =>
    intro l hl dirPath p
    cases l with
    | nil =>
      simp [recurseFiles, framePart, descendKept, specFilesUnder, fileNamesOf,
        orderFiles, sortStr]
    | cons e rest => cases e <;> simp [sizeEntries] at hl
  | succ N ih =>
    intro l hl dirPath p
    rw [recurseFiles, List.mem_append, mem_framePart, mem_descendKept,
      mem_specFilesUnder]
    constructor
    · rintro (⟨nm, hm, he, hp⟩ | ⟨n, cs, hm, hpred, hp⟩)
      · exact Or.inl ⟨nm, hm, by rw [← extOk_of_ne_nil hne]; exact he, hp⟩
      · have hsz : sizeEntries cs ≤ N := by
          have := sizeEntries_lt_of_mem_dir l hm
          omega
        exact Or.inr ⟨n, cs, hm, hpred, (ih cs hsz (joinPath dirPath n) p).mp hp⟩
    · rintro (⟨nm, hm, he, hp⟩ | ⟨n, cs, hm, hpred, hp⟩)
      · exact Or.inl ⟨nm, hm, by rw [extOk_of_ne_nil hne]; exact he, hp⟩
      · have hsz : sizeEntries cs ≤ N := by
          have := sizeEntries_lt_of_mem_dir l hm
          omega
        exact Or.inr ⟨n, cs, hm, hpred, (ih cs hsz (joinPath dirPath n) p).mpr hp⟩

/- ---------------- claim C5 ---------------- -/

/-- Claim C5: for every non-empty extension allowlist, every directory
predicate and every tree, recurseFiles (files included, directories not)
yields exactly the regular files under the root whose extension — per
getExt: case-insensitive, without the leading dot — is in the allowlist,
with directories rejected by the predicate contributing nothing from their
entire subtree: membership in the yielded sequence coincides with the
spec-side characterization specFilesUnder. -/
theorem recurseFiles_allowlist_exact (isWin : Bool) (exts : List String)
    (pred : Option (String → Bool)) (rootPath : String) (children : List Entry)
    (p : String) (hne : exts ≠ []) :
    p ∈ recurseFiles isWin (some exts) pred true false rootPath children
      ↔ p ∈ specFilesUnder exts pred rootPath children :=
  recurse_spec_aux isWin exts pred hne (sizeEntries children) children le_rfl rootPath p

/-- Witness for C5 on the concrete tree of the spec scenario:
root/{a.txt, b.png, sub/c.txt} with the allowlist {txt}. -/
theorem recurseFiles_allowlist_exact_witness :
    "root" ++ "/" ++ "a.txt"
        ∈ recurseFiles false (some ["txt"]) none true false "root"
          [.file "a.txt", .file "b.png", .dir "sub" [.file "c.txt"]]
      ↔ "root" ++ "/" ++ "a.txt"
        ∈ specFilesUnder ["txt"] none "root"
          [.file "a.txt", .file "b.png", .dir "sub" [.file "c.txt"]] :=
  recurseFiles_allowlist_exact false ["txt"] none "root"
    [.file "a.txt", .file "b.png", .dir "sub" [.file "c.txt"]]
    ("root" ++ "/" ++ "a.txt") (by decide)

theorem fileNamesOf_append : ∀ a b : List Entry,
    fileNamesOf (a ++ b) = fileNamesOf a ++ fileNamesOf b := by
  intro a b
  induction a with
  | nil => simp [fileNamesOf]
  | cons e rest ih => cases e <;> simp [fileNamesOf, ih]

theorem descendKept_append (isWin : Bool) (aexts : Option (List String))
    (pred : Option (String → Bool)) (incF incD : Bool) (dirPath : String) :
    ∀ a b : List Entry, descendKept isWin aexts pred incF incD dirPath (a ++ b)
      = descendKept isWin aexts pred incF incD dirPath a
        ++ descendKept isWin aexts pred incF incD dirPath b := by
  intro a b
  induction a with
  | nil => simp [descendKept]
  | cons e rest ih =>
    cases e with
    | file n =>
      simp only [List.cons_append, descendKept]
      exact ih
    | dir n cs =>
      simp only [List.cons_append, descendKept, ih, List.append_assoc]

/- ---------------- claim C6 ---------------- -/

/-- Claim C6 counterexample: recurseFileInfo with directory entries
included (filesOnly=False) and a predicate rejecting every directory still
yields the rejected directory itself — the entry is yielded before the
predicate is consulted, so a rejected directory does appear in the yielded
sequence, though its subtree does not. -/
theorem recurseFileInfo_yields_rejected_dir_cex :
    recurseFileInfo [] false (some fun _ => false) false "root"
      [.dir "sub" [.file "a.txt"]] = ⟨["root/sub"], [], none⟩ := by
  simp [recurseFileInfo, rfiGo, predPasses, joinPath]

/-- Claim C6 (amended): in recurseFiles the two exclusions coincide — a
subdirectory rejected by fnFilterDirs is neither descended into nor yielded,
so deleting it from the tree changes nothing in the output, for any
includeFiles/includeDirs setting.  In recurseFileInfo, however, the
predicate governs descent only: a rejected subdirectory is still yielded as
an entry when filesOnly is false, while its subtree contributes nothing. -/
theorem rejected_directory_descent_vs_yield :
    (∀ (isWin : Bool) (aexts : Option (List String)) (f : String → Bool)
        (incF incD : Bool) (dirPath n : String) (cs l1 l2 : List Entry),
      f (joinPath dirPath n) = false →
      recurseFiles isWin aexts (some f) incF incD dirPath (l1 ++ Entry.dir n cs :: l2)
        = recurseFiles isWin aexts (some f) incF incD dirPath (l1 ++ l2))
    ∧ (∀ (failAt : List (String × PyExc)) (f : String → Bool) (cb : Bool)
        (path n : String) (cs l2 : List Entry),
      f (joinPath path n) = false →
      rfiGo failAt false (some f) cb path (Entry.dir n cs :: l2)
        = ⟨joinPath path n :: (rfiGo failAt false (some f) cb path l2).yielded,
           (rfiGo failAt false (some f) cb path l2).redirected,
           (rfiGo failAt false (some f) cb path l2).raised⟩) := by
  constructor
  · intro isWin aexts f incF incD dirPath n cs l1 l2 hf
    unfold recurseFiles
    have h1 : fileNamesOf (l1 ++ Entry.dir n cs :: l2) = fileNamesOf (l1 ++ l2) := by
      rw [fileNamesOf_append, fileNamesOf_append]
      congr 1
    have h2 : descendKept isWin aexts (some f) incF incD dirPath
          (l1 ++ Entry.dir n cs :: l2)
        = descendKept isWin aexts (some f) incF incD dirPath (l1 ++ l2) := by
      rw [descendKept_append, descendKept_append]
      congr 1
      simp only [descendKept, predPasses, hf]
      simp
    unfold framePart
    rw [h1, h2]
  · intro failAt f cb path n cs l2 hf
    simp only [rfiGo, predPasses, hf]
    simp

/-- Witness for the amended C6 theorem at concrete inputs. -/
theorem rejected_directory_descent_vs_yield_witness :
    (recurseFiles false none (some fun _ => false) true true "r"
        ([] ++ Entry.dir "d" [Entry.file "x.txt"] :: [Entry.file "y.txt"])
      = recurseFiles false none (some fun _ => false) true true "r"
        ([] ++ [Entry.file "y.txt"]))
    ∧ (rfiGo [] false (some fun _ => false) true "r" (Entry.dir "d" [] :: [])
      = ⟨joinPath "r" "d" :: (rfiGo [] false (some fun _ => false) true "r" []).yielded,
         (rfiGo [] false (some fun _ => false) true "r" []).redirected,
         (rfiGo [] false (some fun _ => false) true "r" []).raised⟩) :=
  ⟨rejected_directory_descent_vs_yield.1 false none (fun _ => false) true true "r" "d"
      [Entry.file "x.txt"] [] [Entry.file "y.txt"] rfl,
   rejected_directory_descent_vs_yield.2 [] (fun _ => false) true "r" "d" [] [] rfl⟩

/- ---------------- lemmas for recurseFileInfo error redirection ------------ -/

theorem combineDir_redirected_osErr {cb : Bool} {ep : String} {dirY : List String}
    {sub r : RfiOut}
    (hsub : ∀ q e, (q, e) ∈ sub.redirected → e = PyExc.osErr)
    (hr : ∀ q e, (q, e) ∈ r.redirected → e = PyExc.osErr) :
    ∀ q e, (q, e) ∈ (combineDir cb ep dirY sub r).redirected → e = PyExc.osErr := by
  intro q e h
  unfold combineDir at h
  cases hs : sub.raised with
  | none =>
    simp only [hs] at h
    rcases List.mem_append.mp h with h1 | h2
    · exact hsub q e h1
    · exact hr q e h2
  | some e0 =>
    simp only [hs] at h
    by_cases hcb : (cb && e0 == PyExc.osErr) = true
    · rw [if_pos hcb] at h
      rcases List.mem_append.mp h with h1 | h2
      · rcases List.mem_append.mp h1 with h3 | h4
        · exact hsub q e h3
        · have he0 : e0 = PyExc.osErr := by
            have h5 := hcb
            simp only [Bool.and_eq_true, beq_iff_eq] at h5
            exact h5.2
          simp only [List.mem_singleton, Prod.mk.injEq] at h4
          rw [h4.2, he0]
      · exact hr q e h2
    · rw [if_neg hcb] at h
      exact hsub q e h

theorem combineDir_redirected_nil {cb : Bool} {ep : String} {dirY : List String}
    {sub r : RfiOut} (hsub : sub.redirected = []) (hr : r.redirected = [])
    (hcb : cb = false) : (combineDir cb ep dirY sub r).redirected = [] := by
  unfold combineDir
  cases hs : sub.raised with
  | none => simp [hs, hsub, hr]
  | some e0 => simp [hs, hsub, hr, hcb]

theorem combineDir_raised {cb : Bool} {ep : String} {dirY : List String}
    {sub r : RfiOut} (hcb : cb = true) (hr : r.raised ≠ some PyExc.osErr) :
    (combineDir cb ep dirY sub r).raised ≠ some PyExc.osErr := by
  unfold combineDir
  cases hs : sub.raised with
  | none =>
    simp only [hs]
    exact hr
  | some e0 =>
    simp only [hs]
    by_cases hbe : (cb && e0 == PyExc.osErr) = true
    · rw [if_pos hbe]
      exact hr
    · rw [if_neg hbe]
      subst hcb
      simp only [Bool.true_and] at hbe
      intro hEq
      have he0 : e0 = PyExc.osErr := by
        have := congrArg (fun o => o.getD PyExc.otherErr) hEq
        simpa using this
      exact hbe (by simp [he0])

theorem rfiGo_props (failAt : List (String × PyExc)) (filesOnly : Bool)
    (pred : Option (String → Bool)) (cb : Bool) :
    ∀ N, ∀ l : List Entry, sizeEntries l ≤ N → ∀ path : String,
      (∀ q e, (q, e) ∈ (rfiGo failAt filesOnly pred cb path l).redirected
        → e = PyExc.osErr)
      ∧ (cb = false → (rfiGo failAt filesOnly pred cb path l).redirected = [])
      ∧ (cb = true → (rfiGo failAt filesOnly pred cb path l).raised
          ≠ some PyExc.osErr) := by
  intro N
  induction N with
  | zero =>
    intro l hl path
    cases l with
    | nil =>
      refine ⟨?_, ?_, ?_⟩ <;> simp [rfiGo]
    | cons e rest => cases e <;> simp [sizeEntries] at hl
  | succ N ih =>
    intro l hl path
    match l with
    | [] => refine ⟨?_, ?_, ?_⟩ <;> simp [rfiGo]
    | .file n :: rest =>
      have hrest : sizeEntries rest ≤ N := by
        simp only [sizeEntries] at hl
        omega
      have hr := ih rest hrest path
      refine ⟨?_, ?_, ?_⟩
      · intro q e hm
        exact hr.1 q e (by simpa [rfiGo] using hm)
      · intro hcb
        simpa [rfiGo] using hr.2.1 hcb
      · intro hcb
        simpa [rfiGo] using hr.2.2 hcb
    | .dir n cs :: rest =>
      have hsz : sizeEntries cs ≤ N ∧ sizeEntries rest ≤ N := by
        simp only [sizeEntries] at hl
        omega
      have hcs := ih cs hsz.1 (joinPath path n)
      have hrest := ih rest hsz.2 path
      have hsubp : (∀ q e,
            (q, e) ∈ (match failAt.lookup (joinPath path n) with
              | some e0 => (⟨[], [], some e0⟩ : RfiOut)
              | none => rfiGo failAt filesOnly pred cb (joinPath path n) cs).redirected
            → e = PyExc.osErr)
          ∧ (cb = false → (match failAt.lookup (joinPath path n) with
              | some e0 => (⟨[], [], some e0⟩ : RfiOut)
              | none => rfiGo failAt filesOnly pred cb (joinPath path n) cs).redirected
              = []) := by
        cases hlk : failAt.lookup (joinPath path n) with
        | some e0 => exact ⟨by intro q e hm; simp at hm, by intro _; rfl⟩
        | none => exact ⟨hcs.1, hcs.2.1⟩
      by_cases hpp : predPasses pred (joinPath path n) = true
      · have heq : rfiGo failAt filesOnly pred cb path (Entry.dir n cs :: rest)
            = combineDir cb (joinPath path n)
                (if filesOnly then [] else [joinPath path n])
                (match failAt.lookup (joinPath path n) with
                 | some e => ⟨[], [], some e⟩
                 | none => rfiGo failAt filesOnly pred cb (joinPath path n) cs)
                (rfiGo failAt filesOnly pred cb path rest) := by
          simp only [rfiGo, if_pos hpp]
        rw [heq]
        refine ⟨?_, ?_, ?_⟩
        · exact combineDir_redirected_osErr hsubp.1 hrest.1
        · intro hcb
          exact combineDir_redirected_nil (hsubp.2 hcb) (hrest.2.1 hcb) hcb
        · intro hcb
          exact combineDir_raised hcb (hrest.2.2 hcb)
      · have heq : rfiGo failAt filesOnly pred cb path (Entry.dir n cs :: rest)
            = ⟨(if filesOnly then [] else [joinPath path n])
                  ++ (rfiGo failAt filesOnly pred cb path rest).yielded,
                (rfiGo failAt filesOnly pred cb path rest).redirected,
                (rfiGo failAt filesOnly pred cb path rest).raised⟩ := by
          simp only [rfiGo, if_neg hpp]
        rw [heq]
        exact ⟨hrest.1, hrest.2.1, hrest.2.2⟩

/- ---------------- claim C10 ---------------- -/

/-- Claim C10: in recurseFileInfo the error callback receives only OSError
instances raised while recursing into a subdirectory: every (path, error)
pair passed to the callback carries an OSError; nothing is redirected when
no callback is supplied; with a callback supplied no OSError from a
subdirectory escapes — an OSError can escape only when the enumeration of
the root directory itself fails, and such a root failure propagates
unchanged, callback or not (non-OSError exceptions are never redirected, so
they propagate and abort the traversal). -/
theorem recurseFileInfo_error_redirection
    (failAt : List (String × PyExc)) (filesOnly : Bool)
    (pred : Option (String → Bool)) (cb : Bool) (rootPath : String)
    (children : List Entry) :
    (∀ e, failAt.lookup rootPath = some e →
      recurseFileInfo failAt filesOnly pred cb rootPath children = ⟨[], [], some e⟩)
    ∧ (∀ q e, (q, e) ∈ (recurseFileInfo failAt filesOnly pred cb rootPath
        children).redirected → e = PyExc.osErr)
    ∧ (cb = false →
        (recurseFileInfo failAt filesOnly pred cb rootPath children).redirected = [])
    ∧ (cb = true →
        (recurseFileInfo failAt filesOnly pred cb rootPath children).raised
            = some PyExc.osErr →
        failAt.lookup rootPath = some PyExc.osErr) := by
  have hprops := rfiGo_props failAt filesOnly pred cb (sizeEntries children) children
    le_rfl rootPath
  refine ⟨?_, ?_, ?_, ?_⟩
  · intro e he
    unfold recurseFileInfo
    rw [he]
  · intro q e hm
    unfold recurseFileInfo at hm
    cases hlk : failAt.lookup rootPath with
    | some e0 => rw [hlk] at hm; simp at hm
    | none => exact hprops.1 q e (by rw [hlk] at hm; exact hm)
  · intro hcb
    unfold recurseFileInfo
    cases hlk : failAt.lookup rootPath with
    | some e0 => rfl
    | none => exact hprops.2.1 hcb
  · intro hcb hraised
    unfold recurseFileInfo at hraised
    cases hlk : failAt.lookup rootPath with
    | some e0 =>
      rw [hlk] at hraised
      simp only at hraised
      exact hraised
    | none =>
      rw [hlk] at hraised
      exact absurd hraised (hprops.2.2 hcb)

/-- Witness for C10 at concrete inputs touching each conjunct. -/
theorem recurseFileInfo_error_redirection_witness :
    (recurseFileInfo [("root", PyExc.otherErr)] true none true "root" []
        = ⟨[], [], some PyExc.otherErr⟩)
    ∧ PyExc.osErr = PyExc.osErr
    ∧ (recurseFileInfo [("root/sub", PyExc.osErr)] true none false "root"
        [.dir "sub" []]).redirected = []
    ∧ [("root", PyExc.osErr)].lookup "root" = some PyExc.osErr := by
  refine ⟨?_, ?_, ?_, ?_⟩
  · exact (recurseFileInfo_error_redirection [("root", PyExc.otherErr)] true none true
      "root" []).1 PyExc.otherErr (by decide)
  · exact (recurseFileInfo_error_redirection [("root/sub", PyExc.osErr)] true none true
      "root" [.dir "sub" []]).2.1 "root/sub" PyExc.osErr
      (by simp [recurseFileInfo, rfiGo, combineDir, predPasses, joinPath, List.lookup])
  · exact (recurseFileInfo_error_redirection [("root/sub", PyExc.osErr)] true none false
      "root" [.dir "sub" []]).2.2.1 rfl
  · exact (recurseFileInfo_error_redirection [("root", PyExc.osErr)] true none true
      "root" [.file "a"]).2.2.2 rfl (by decide)

end Srss
